import Mathlib

/-!
Verification development for the Orion companion runtime.

Each namespace below is a shallow embedding of one Python module of the
repository: pure functions mirror the module's functions, module state
(database rows, vector entries, trigger lists) is passed explicitly, and
external effects (HTTP transport, clock, UUID generation, text splitting)
are parameters of the embedded functions.  Theorems at the end of the file
settle the specification claims against these definitions.
-/

namespace StrUtil

/-- Boolean test that `pre` is a prefix of `l`, on character lists. -/
def listPrefixOf : List Char → List Char → Bool
  | [], _ => true
  | _ :: _, [] => false
  | a :: as, b :: bs => a == b && listPrefixOf as bs

/-- Boolean substring search on character lists: does `needle` occur
contiguously inside the second list?  Mirrors the Python `in` operator
on strings. -/
def listSub (needle : List Char) : List Char → Bool
  | [] => needle.isEmpty
  | h :: t => listPrefixOf needle (h :: t) || listSub needle t

/-- The Python expression `needle in hay` on strings. -/
def strContains (hay needle : String) : Bool :=
  listSub needle.data hay.data

/-- The Python expression `", ".join(parts)`. -/
def joinComma : List String → String
  | [] => ""
  | [s] => s
  | s :: rest => s ++ ", " ++ joinComma rest

/-- ASCII lowering of one character, as Python `str.lower()` acts on the
ASCII range (the only range the repository's compared literals use). -/
def lowerChar (c : Char) : Char :=
  if 'A' ≤ c && c ≤ 'Z' then Char.ofNat (c.toNat + 32) else c

/-- The Python expression `s.lower()`. -/
def pyLower (s : String) : String := ⟨s.data.map lowerChar⟩

/-- The Python expression `s.strip()`: drop whitespace from both ends. -/
def pyStrip (s : String) : String :=
  ⟨((s.data.dropWhile Char.isWhitespace).reverse.dropWhile Char.isWhitespace).reverse⟩

end StrUtil

namespace ThreadManager

/-- The `ThreadState` enum of `database/models.py`: a thread is open,
waiting for a user reply, or resolved. -/
inductive TState where
  | tsOpen
  | tsWaiting
  | tsResolved
deriving DecidableEq, Repr

/-- The `state_map` dictionary of `update_state` in
`background/thread_manager.py`, as a partial lookup from state strings
to enum values. -/
def stateMap (s : String) : Option TState :=
  if s == "open" then some TState.tsOpen
  else if s == "waiting" then some TState.tsWaiting
  else if s == "resolved" then some TState.tsResolved
  else none

/-- The thread table of the relational store, projected to the columns
`update_state` reads and writes: thread id and state.  Thread ids are
modeled as opaque strings (the UUID parse of a stored id always
succeeds). -/
abbrev ThreadDb := List (String × TState)

/-- `update_state(thread_id, state)` of `background/thread_manager.py`:
validate the state string against `state_map` (lowercased), look up the
thread, and overwrite its state column.  The two `ValueError` paths of
the source are the two error results. -/
def update_state (db : ThreadDb) (threadId state : String) : Except String ThreadDb :=
  match stateMap (StrUtil.pyLower state) with
  | none =>
      .error ("Invalid thread state: " ++ state ++ ". Must be open, waiting, or resolved.")
  | some newState =>
      match List.lookup threadId db with
      | none => .error ("Thread not found: " ++ threadId)
      | some _ =>
          .ok (db.map (fun p => if p.1 == threadId then (p.1, newState) else p))

end ThreadManager

namespace Sandbox

/-- One section of the permission policy document, projected to the keys
that `permissions/sandbox.py` reads with `section.get(key, default)`.
Absent keys are modeled by the corresponding default value. -/
structure PolicySection where
  enabled : Bool := false
  requireConfirm : Bool := false
  read : Bool := false
  write : Bool := false
  delete : Bool := false
  blockedPaths : List String := []
  allowedPaths : List String := []
  blockedCommands : List String := []
  allowedApps : List String := []
  blockedDomains : List String := []
  allowedDomains : List String := []
deriving DecidableEq, Repr

/-- The loaded policy document: a partial map from section key to section,
standing for `config_loader.get` (which raises `KeyError` on a missing
section, modeled by `none`). -/
abbrev Policy := String → Option PolicySection

/-- The `details` dict of a permission check, projected to the keys the
sandbox reads; `details.get(key, "")` of an absent key is the empty
string. -/
structure Details where
  path : String := ""
  command : String := ""
  app : String := ""
  url : String := ""
deriving DecidableEq, Repr

/-- The `PermissionResult` dataclass of `permissions/permission_types.py`. -/
structure PermissionResult where
  allowed : Bool
  requiresConfirm : Bool
  reason : String
  action : String
deriving DecidableEq, Repr

/-- The values of the `PermissionAction` enum. -/
def validActions : List String :=
  ["file.read", "file.write", "file.delete", "terminal.run", "app.open",
   "input.control", "calendar.read", "calendar.write", "browser.navigate",
   "browser.search", "system.info"]

/-- The `ACTION_TO_SECTION` map of `permissions/permission_types.py`. -/
def actionToSection : List (String × String) :=
  [("file.read", "file_system"), ("file.write", "file_system"),
   ("file.delete", "file_system"), ("terminal.run", "terminal"),
   ("app.open", "app_control"), ("input.control", "input_control"),
   ("calendar.read", "calendar"), ("calendar.write", "calendar"),
   ("browser.navigate", "browsing"), ("browser.search", "search"),
   ("system.info", "system_info")]

/-- `_check_file_system` of `permissions/sandbox.py`.  `expandUser` is the
environment's `Path(p).expanduser()` (home-directory expansion), passed in
as a parameter. -/
def checkFileSystem (expandUser : String → String) (action : String)
    (sec : PolicySection) (details : Details) : PermissionResult :=
  if action == "file.read" && !sec.read then
    ⟨false, false, "File read is disabled.", action⟩
  else if action == "file.write" && !sec.write then
    ⟨false, false, "File write is disabled.", action⟩
  else if action == "file.delete" && !sec.delete then
    ⟨false, false, "File delete is disabled.", action⟩
  else
    let targetPath := details.path
    if targetPath ≠ "" &&
        sec.blockedPaths.any (fun b => targetPath.startsWith (expandUser b)) then
      ⟨false, false, "Path " ++ targetPath ++ " is in blocked_paths.", action⟩
    else if targetPath ≠ "" && !sec.allowedPaths.isEmpty &&
        !sec.allowedPaths.any (fun a => targetPath.startsWith (expandUser a)) then
      ⟨false, false, "Path " ++ targetPath ++ " is not in allowed_paths.", action⟩
    else
      ⟨true, sec.requireConfirm,
       "File operation allowed." ++
         (if sec.requireConfirm then " Confirmation required." else ""), action⟩

/-- `_check_terminal` of `permissions/sandbox.py`: deny when the command
contains any blocked substring. -/
def checkTerminal (action : String) (sec : PolicySection)
    (details : Details) : PermissionResult :=
  match sec.blockedCommands.find? (fun b => StrUtil.strContains details.command b) with
  | some b => ⟨false, false, "Command contains blocked pattern " ++ b ++ ".", action⟩
  | none =>
      ⟨true, sec.requireConfirm,
       "Terminal command allowed." ++
         (if sec.requireConfirm then " Confirmation required." else ""), action⟩

/-- `_check_app_control` of `permissions/sandbox.py`. -/
def checkAppControl (action : String) (sec : PolicySection)
    (details : Details) : PermissionResult :=
  let appName := StrUtil.pyLower details.app
  let allowedApps := sec.allowedApps.map StrUtil.pyLower
  if !allowedApps.isEmpty && appName ≠ "" && !allowedApps.contains appName then
    ⟨false, false, "App " ++ appName ++ " is not in allowed_apps.", action⟩
  else
    ⟨true, sec.requireConfirm,
     "App control allowed." ++
       (if sec.requireConfirm then " Confirmation required." else ""), action⟩

/-- `_check_simple_with_confirm` of `permissions/sandbox.py`. -/
def checkSimpleWithConfirm (action : String) (sec : PolicySection)
    (label : String) : PermissionResult :=
  ⟨true, sec.requireConfirm,
   label ++ " allowed." ++
     (if sec.requireConfirm then " Confirmation required." else ""), action⟩

/-- `_check_calendar` of `permissions/sandbox.py`. -/
def checkCalendar (action : String) (sec : PolicySection) : PermissionResult :=
  if action == "calendar.read" && !sec.read then
    ⟨false, false, "Calendar read is disabled.", action⟩
  else if action == "calendar.write" && !sec.write then
    ⟨false, false, "Calendar write is disabled.", action⟩
  else
    ⟨true, sec.requireConfirm,
     "Calendar access allowed." ++
       (if sec.requireConfirm then " Confirmation required." else ""), action⟩

/-- `_check_browsing` of `permissions/sandbox.py`: blocked domains are
substring matches against the url; when `allowed_domains` is non-empty the
url must contain one of them. -/
def checkBrowsing (action : String) (sec : PolicySection)
    (details : Details) : PermissionResult :=
  let url := details.url
  if url ≠ "" then
    match sec.blockedDomains.find? (fun d => StrUtil.strContains url d) with
    | some d => ⟨false, false, "Domain " ++ d ++ " is blocked.", action⟩
    | none =>
        if !sec.allowedDomains.isEmpty &&
            !sec.allowedDomains.any (fun d => StrUtil.strContains url d) then
          ⟨false, false, "URL " ++ url ++ " not in allowed_domains.", action⟩
        else
          ⟨true, sec.requireConfirm,
           "Browsing allowed." ++
             (if sec.requireConfirm then " Confirmation required." else ""), action⟩
  else
    ⟨true, sec.requireConfirm,
     "Browsing allowed." ++
       (if sec.requireConfirm then " Confirmation required." else ""), action⟩

/-- `_check_action_specific` of `permissions/sandbox.py`: dispatch on the
resolved section key.  Note the `search` and `system_info` branches return
a fixed decision that ignores the section's `require_confirm` flag. -/
def checkActionSpecific (expandUser : String → String) (action sectionKey : String)
    (sec : PolicySection) (details : Details) : PermissionResult :=
  if sectionKey == "file_system" then checkFileSystem expandUser action sec details
  else if sectionKey == "terminal" then checkTerminal action sec details
  else if sectionKey == "app_control" then checkAppControl action sec details
  else if sectionKey == "input_control" then
    checkSimpleWithConfirm action sec "input_control"
  else if sectionKey == "calendar" then checkCalendar action sec
  else if sectionKey == "browsing" then checkBrowsing action sec details
  else if sectionKey == "search" then
    ⟨true, false, "Search is enabled.", action⟩
  else if sectionKey == "system_info" then
    ⟨true, false, "System info read is enabled.", action⟩
  else
    ⟨false, false, "No specific handler for section " ++ sectionKey ++ ".", action⟩

/-- `check(action, details)` of `permissions/sandbox.py`: validate the
action string, resolve its policy section, test the section-level
`enabled` flag, then run the action-specific fine-grained checks. -/
def check (expandUser : String → String) (policy : Policy)
    (action : String) (details : Details) : PermissionResult :=
  if !validActions.contains action then
    ⟨false, false, "Unknown action " ++ action ++ ".", action⟩
  else
    match List.lookup action actionToSection with
    | none => ⟨false, false, "No config section mapped for action " ++ action ++ ".", action⟩
    | some sectionKey =>
        match policy sectionKey with
        | none =>
            ⟨false, false, "Permission section " ++ sectionKey ++ " not found in config.",
             action⟩
        | some sec =>
            if !sec.enabled then
              ⟨false, false,
               "Section " ++ sectionKey ++ " is disabled in permissions.yaml.", action⟩
            else
              checkActionSpecific expandUser action sectionKey sec details

/-- A message observed while polling the channel updates endpoint:
the sender chat id and the message text. -/
structure Update where
  chatId : String
  text : String
deriving DecidableEq, Repr

/-- The environment of one `request_confirm` call: whether a bot token is
configured, whether the transport send succeeds, the configured user's
chat id, and the updates the poll loop observes before the deadline, in
arrival order. -/
structure ConfirmEnv where
  botToken : Bool
  sendOk : Bool
  userId : String
  updates : List Update

/-- A terminating reply: sent by the configured user, and equal to "yes"
or "no" after trimming and lowercasing. -/
def isTerminating (userId : String) (u : Update) : Bool :=
  u.chatId == userId &&
    (StrUtil.pyLower (StrUtil.pyStrip u.text) == "yes" ||
      StrUtil.pyLower (StrUtil.pyStrip u.text) == "no")

/-- The polling loop of `request_confirm`: scan updates in arrival order;
the first terminating reply decides the result; running out of updates
before the deadline yields false (timeout). -/
def pollLoop (userId : String) : List Update → Bool
  | [] => false
  | u :: rest =>
      if isTerminating userId u then StrUtil.pyLower (StrUtil.pyStrip u.text) == "yes"
      else pollLoop userId rest

/-- `request_confirm(action, details, timeout)` of `permissions/sandbox.py`,
as a function of its transport environment: auto-deny without a bot token,
deny when the send fails, otherwise poll for the first terminating reply
before the deadline. -/
def request_confirm (env : ConfirmEnv) : Bool :=
  if !env.botToken then false
  else if !env.sendOk then false
  else pollLoop env.userId env.updates

end Sandbox

namespace Orchestrator

/-- The provider environment of `core/orchestrator.py`: `authAvail p` is
the auth manager's per-provider readiness (the credential/env checks of
`AuthManager.get_available_providers` and the `available` field of
`get_provider_status`, which perform the same checks), and `engineOk c`
is `engine.is_available()` for the lazily constructed engine instance of
canonical key `c`. -/
structure ProviderEnv where
  authAvail : String → Bool
  engineOk : String → Bool

/-- `_normalize_engine_name` of `core/orchestrator.py`. -/
def normalizeEngineName (name : String) : String :=
  let n := StrUtil.pyStrip (StrUtil.pyLower name)
  if n == "claude" then "anthropic"
  else if n == "ollama" then "local"
  else n

/-- The keys of `_ENGINE_CLASS_MAP`: providers for which
`_get_engine_instance` can construct an engine. -/
def engineClassKeys : List String :=
  ["anthropic", "openai", "gemini", "openrouter", "groq", "local", "ollama"]

/-- The `reasoning` priority list of `_PRIORITY_MAP`. -/
def reasoningPriorities : List String :=
  ["anthropic", "openai", "gemini", "openrouter", "groq", "local"]

/-- The `_PRIORITY_MAP` table of `core/orchestrator.py`. -/
def priorityMap : List (String × List String) :=
  [("reasoning", reasoningPriorities),
   ("code", ["openai", "anthropic", "groq", "openrouter", "local"]),
   ("fast", ["groq", "gemini", "local", "anthropic"]),
   ("multimodal", ["gemini", "openai", "anthropic"]),
   ("local", ["local"]),
   ("voice", ["openai", "anthropic", "gemini", "local"]),
   ("browser", ["openai", "anthropic", "openrouter", "local"]),
   ("agent", ["anthropic", "openai", "gemini", "local"]),
   ("vision", ["gemini", "openai", "anthropic"])]

/-- `_PRIORITY_MAP.get(normalized, _PRIORITY_MAP["reasoning"])`. -/
def priorityFor (normalized : String) : List String :=
  (List.lookup normalized priorityMap).getD reasoningPriorities

/-- `AuthManager.get_available_providers`: the providers whose credential
or connectivity check passes, in the source's fixed check order; a
reachable ollama endpoint contributes both "ollama" and "local". -/
def get_available_providers (e : ProviderEnv) : List String :=
  (if e.authAvail "anthropic" then ["anthropic"] else []) ++
  (if e.authAvail "openai" then ["openai"] else []) ++
  (if e.authAvail "gemini" then ["gemini"] else []) ++
  (if e.authAvail "openrouter" then ["openrouter"] else []) ++
  (if e.authAvail "groq" then ["groq"] else []) ++
  (if e.authAvail "mistral" then ["mistral"] else []) ++
  (if e.authAvail "ollama" then ["ollama", "local"] else [])

/-- Membership in the dictionary built by `get_available_engines`: the
canonical key of some auth-available provider, for which an engine class
exists and whose engine instance reports itself available. -/
def engineAvailable (e : ProviderEnv) (canonical : String) : Bool :=
  ((get_available_providers e).map normalizeEngineName).contains canonical &&
    engineClassKeys.contains canonical && e.engineOk canonical

/-- The providers of `get_provider_status`, listed here in sorted order so
that filtering it mirrors `sorted(missing)` in the source. -/
def statusProviders : List String :=
  ["anthropic", "gemini", "groq", "mistral", "ollama", "openai", "openrouter"]

/-- The providers the auth manager reports unavailable, sorted — the
`missing` list of `route`'s error path. -/
def statusMissing (e : ProviderEnv) : List String :=
  statusProviders.filter (fun p => !e.authAvail p)

/-- The `RuntimeError` message raised by `route` when the priority walk
finds nothing (quotation marks of the source's f-string omitted). -/
def routeErrorMsg (e : ProviderEnv) (taskType : String) : String :=
  let missing := statusMissing e
  let missingText := if missing.isEmpty then "none" else StrUtil.joinComma missing
  "No LLM engines are available for task type " ++ taskType ++
    ". Configure providers with python scripts/setup.py. Missing credentials/providers: " ++
    missingText ++ "."

/-- `route(task_type)` of `core/orchestrator.py`: the "local" task type
short-circuits to the local engine without an availability check;
otherwise walk the task type's priority list (falling back to the
reasoning list) and return the first provider whose engine is available;
when the walk finds nothing, raise with the diagnostic message.  The
returned engine is identified by its canonical provider key. -/
def route (e : ProviderEnv) (taskType : String) : Except String String :=
  let normalized := StrUtil.pyStrip (StrUtil.pyLower taskType)
  if normalized == "local" then .ok "local"
  else
    match (priorityFor normalized).find?
        (fun p => engineAvailable e (normalizeEngineName p)) with
    | some p => .ok (normalizeEngineName p)
    | none => .error (routeErrorMsg e taskType)

/-- The walk the specification describes for `route`: scan a priority
list and return the first provider whose engine is available.  Written
from the spec's words, to be compared with the source-translated
`route`. -/
def walkPriorityList (e : ProviderEnv) : List String → Option String
  | [] => none
  | p :: rest =>
      if engineAvailable e (normalizeEngineName p) then some (normalizeEngineName p)
      else walkPriorityList e rest

end Orchestrator

namespace VectorStore

/-- Metadata of a vector entry, as a Python dict with string keys;
values are modeled as strings (every value the claims touch is one).
`List.lookup` reads the first binding, and `dictSet` keeps keys unique. -/
abbrev Meta := List (String × String)

/-- Python dict assignment `m[k] = v`: replace any existing binding. -/
def dictSet (m : Meta) (k v : String) : Meta :=
  (m.filter (fun kv => !(kv.1 == k))) ++ [(k, v)]

/-- Python `m.setdefault(k, v)`: insert only when the key is absent. -/
def dictSetdefault (m : Meta) (k v : String) : Meta :=
  if (List.lookup k m).isSome then m else m ++ [(k, v)]

/-- One stored vector entry: id and metadata (the embedding itself plays
no role in any claim and is omitted). -/
structure VecEntry where
  id : String
  meta : Meta
deriving DecidableEq, Repr

/-- The store contents of the active backend. -/
abbrev Store := List VecEntry

/-- The backend `upsert` contract shared by `_SupabaseBackend.upsert`
(`Prefer: resolution=merge-duplicates`) and `_ChromaBackend.upsert`
(`collection.upsert`): modeled from the backends' documented semantics —
an existing entry with the same id is replaced, otherwise the entry is
added. -/
def backendUpsert (store : Store) (docId : String) (meta : Meta) : Store :=
  (store.filter (fun en => !(en.id == docId))) ++ [⟨docId, meta⟩]

/-- The backend `delete` contract (`_SupabaseBackend.delete`,
`_ChromaBackend.delete`): remove the entries whose id is listed; unknown
ids are ignored. -/
def backendDelete (store : Store) (ids : List String) : Store :=
  store.filter (fun en => !(ids.contains en.id))

/-- Module-level `upsert(doc_id, text, metadata)` of
`database/vector_store.py`: copy the caller metadata, `setdefault` the
`text` key to the content, embed, and hand to the backend. -/
def upsert (store : Store) (docId text : String) (metadata : Meta) : Store :=
  backendUpsert store docId (dictSetdefault metadata "text" text)

/-- Module-level `delete(doc_ids)` of `database/vector_store.py`. -/
def delete (store : Store) (ids : List String) : Store :=
  backendDelete store ids

end VectorStore

namespace Rag

open VectorStore

/-- The deterministic chunk id of `core/rag.py`:
`f"{parent_doc_id}_chunk_{i}"`. -/
def chunkId (parent : String) (i : Nat) : String :=
  parent ++ "_chunk_" ++ toString i

/-- The per-chunk upsert loop of `ingest`: for chunk `i`, set
`chunk_index` and `text` on a copy of the document metadata and upsert
under the deterministic chunk id. -/
def ingestLoop (parent : String) (meta : Meta) :
    List String → Nat → Store → Store
  | [], _, store => store
  | c :: rest, i, store =>
      ingestLoop parent meta rest (i + 1)
        (VectorStore.upsert store (chunkId parent i) c
          (dictSet (dictSet meta "chunk_index" (toString i)) "text" c))

/-- `ingest(text, source, user_id, metadata)` of `core/rag.py`.  The
external text splitter (`RecursiveCharacterTextSplitter.split_text`) and
the fresh `uuid4` are environment outputs passed in as `chunks` and
`parent`.  Whitespace-only text or an empty chunk list returns `""` with
no writes; otherwise every chunk is upserted and the parent id is
returned. -/
def ingest (store : Store) (text source userId : String) (metadata : Meta)
    (chunks : List String) (parent : String) : String × Store :=
  if StrUtil.pyStrip text == "" then ("", store)
  else if chunks.isEmpty then ("", store)
  else
    let meta := dictSet (dictSet metadata "source" source) "user_id" userId
    let meta := dictSet (dictSet meta "parent_doc_id" parent) "total_chunks"
      (toString chunks.length)
    (parent, ingestLoop parent meta chunks 0 store)

/-- `_MAX_CHUNKS_PER_DOC` of `core/rag.py`. -/
def maxChunksPerDoc : Nat := 500

/-- `delete_document(doc_id)` of `core/rag.py`: skip an empty id, else
batch-delete the deterministic candidate ids
`{doc_id}_chunk_{0..499}`. -/
def delete_document (store : Store) (docId : String) : Store :=
  if docId == "" then store
  else VectorStore.delete store ((List.range maxChunksPerDoc).map (chunkId docId))

end Rag

namespace Memory

open VectorStore

/-- A `User` row, projected to primary key and unique name. -/
structure UserRow where
  id : String
  name : String
deriving DecidableEq, Repr

/-- A `Session` row, projected to the columns `core/memory.py` touches. -/
structure SessionRow where
  id : String
  userId : String
  endedAt : Option Nat
  messageCount : Nat
  startedAt : Nat
deriving DecidableEq, Repr

/-- A `Message` row, projected to the columns `core/memory.py` touches. -/
structure MessageRow where
  id : String
  userId : String
  role : String
  content : String
  sessionId : String
  timestamp : Nat
  metadata : Meta
deriving DecidableEq, Repr

/-- The relational store state seen by `core/memory.py`. -/
structure Db where
  users : List UserRow
  sessions : List SessionRow
  messages : List MessageRow
deriving DecidableEq, Repr

/-- `_resolve_user_by_name` of `core/memory.py`: when the id parses as a
UUID, try the primary-key lookup first; fall back to the name column.
`isUUID` is the environment's `uuid.UUID(user_id)` parse success. -/
def resolve_user_by_name (isUUID : String → Bool) (db : Db)
    (userId : String) : Option UserRow :=
  match (if isUUID userId then db.users.find? (fun u => u.id == userId) else none) with
  | some u => some u
  | none => db.users.find? (fun u => u.name == userId)

/-- `_get_or_create_user` of `core/memory.py`: reuse an existing row, else
insert a new row whose primary key is the id itself when it parses as a
UUID and a fresh UUID (`freshUserId`) otherwise, with `name = user_id`. -/
def get_or_create_user (isUUID : String → Bool) (db : Db)
    (userId freshUserId : String) : UserRow × Db :=
  match resolve_user_by_name isUUID db userId with
  | some u => (u, db)
  | none =>
      let pk := if isUUID userId then userId else freshUserId
      let u : UserRow := ⟨pk, userId⟩
      (u, { db with users := db.users ++ [u] })

/-- The open sessions of a user, most recent `started_at` first pick of
`_get_active_session`'s `ORDER BY started_at DESC LIMIT 1`. -/
def pickActiveSession (sessions : List SessionRow) : Option SessionRow :=
  sessions.foldl
    (fun best s =>
      match best with
      | none => some s
      | some b => if s.startedAt > b.startedAt then some s else some b)
    none

/-- `_get_active_session` of `core/memory.py`: reuse the most recent open
session (`ended_at IS NULL`), else insert a fresh one. -/
def get_active_session (db : Db) (u : UserRow) (freshSessionId : String)
    (now : Nat) : SessionRow × Db :=
  match pickActiveSession
      (db.sessions.filter (fun s => s.userId == u.id && s.endedAt.isNone)) with
  | some s => (s, db)
  | none =>
      let s : SessionRow := ⟨freshSessionId, u.id, none, 0, now⟩
      (s, { db with sessions := db.sessions ++ [s] })

/-- The valid role strings of the `MessageRole` enum. -/
def validRoles : List String := ["user", "assistant", "system"]

/-- The vector metadata built by `save_message`: the literal dict
`{user_id, role, text, timestamp}` extended with the caller's scalar
metadata fields. -/
def saveVecMeta (userId role content : String) (now : Nat) (metadata : Meta) : Meta :=
  metadata.foldl (fun m kv => dictSet m kv.1 kv.2)
    [("user_id", userId), ("role", role), ("text", content),
     ("timestamp", toString now)]

/-- `save_message(user_id, role, content, metadata)` of `core/memory.py`.
Fresh UUIDs and the clock are passed in.  The relational phase commits a
new `Message` row on the active session and increments that session's
`message_count`; only then is the vector upsert attempted, and its
failure (`vecFails = true`) is caught and logged, leaving the vector
store untouched and the call successful.  An invalid role raises before
any write. -/
def save_message (isUUID : String → Bool) (db : Db) (vs : Store)
    (vecFails : Bool) (userId role content : String) (metadata : Meta)
    (freshUserId freshSessionId freshMessageId : String) (now : Nat) :
    Except String (Db × Store) :=
  if !validRoles.contains (StrUtil.pyLower role) then
    .error ("Invalid message role " ++ role ++ ". Must be one of: user, assistant, system")
  else
    let ud := get_or_create_user isUUID db userId freshUserId
    let sd := get_active_session ud.2 ud.1 freshSessionId now
    let msg : MessageRow :=
      ⟨freshMessageId, ud.1.id, StrUtil.pyLower role, content, sd.1.id, now, metadata⟩
    let committed : Db :=
      { sd.2 with
        messages := sd.2.messages ++ [msg]
        sessions := sd.2.sessions.map
          (fun s => if s.id == sd.1.id then { s with messageCount := s.messageCount + 1 }
                    else s) }
    if vecFails then .ok (committed, vs)
    else
      .ok (committed,
        VectorStore.upsert vs freshMessageId content
          (saveVecMeta userId role content now metadata))

/-- `get_history(user_id, limit)` of `core/memory.py`: an unknown user id
returns the empty list; otherwise the user's messages ordered by
timestamp descending, limited, then reversed to oldest-first.  The
function performs no write, so the store is returned unchanged. -/
def get_history (isUUID : String → Bool) (db : Db) (userId : String)
    (limit : Nat) : List MessageRow × Db :=
  match resolve_user_by_name isUUID db userId with
  | none => ([], db)
  | some u =>
      let msgs := db.messages.filter (fun m => m.userId == u.id)
      let newestFirst := msgs.mergeSort (fun a b => a.timestamp ≥ b.timestamp)
      ((newestFirst.take limit).reverse, db)

end Memory

namespace Triggers

/-- A UTC instant, in whole seconds since the epoch.  `hour`, `minute`
and `weekday` mirror the fields `background/triggers.py` reads off a
`datetime` (1970-01-01 was a Thursday; `weekday()` has Monday = 0). -/
structure DateTime where
  sec : Nat
deriving DecidableEq, Repr

/-- The `datetime.hour` field. -/
def DateTime.hour (t : DateTime) : Nat := t.sec % 86400 / 3600

/-- The `datetime.minute` field. -/
def DateTime.minute (t : DateTime) : Nat := t.sec % 3600 / 60

/-- The `datetime.weekday()` value, Monday = 0. -/
def DateTime.weekday (t : DateTime) : Nat := (t.sec / 86400 + 3) % 7

/-- `(a - b).total_seconds()` as an integer number of seconds. -/
def diffSec (a b : DateTime) : Int := (a.sec : Int) - (b.sec : Int)

/-- The `TriggerType` enum of `background/triggers.py`. -/
inductive TriggerType where
  | timeBased
  | schedule
  | pattern
  | inactivity
  | keyword
deriving DecidableEq, Repr

/-- The `condition` dict of a trigger, projected to the keys the
evaluators read with `condition.get(key, default)`; an absent key is
`none` and each reader applies its own default. -/
structure Condition where
  hour : Option Nat := none
  minute : Option Nat := none
  days : List String := []
  hours : Option Nat := none
  times : List DateTime := []
  patternType : Option String := none
  day : Option Nat := none
  keywords : List String := []
deriving DecidableEq, Repr

/-- The `Trigger` dataclass of `background/triggers.py` (the
`message_template` field plays no role in any claim and is omitted). -/
structure Trigger where
  id : String
  type : TriggerType
  condition : Condition
  lastFired : Option DateTime := none
  enabled : Bool := true
deriving DecidableEq, Repr

/-- One message of `context.recent_messages`, projected to `content`. -/
structure RecentMsg where
  content : String
deriving DecidableEq, Repr

/-- The evaluation context snapshot.  The daemon always supplies
`current_time`, so the `datetime.now` default of the source never
fires here and evaluation is a pure function of trigger and context. -/
structure Context where
  currentTime : DateTime
  lastMessageTime : Option DateTime := none
  recentMessages : List RecentMsg := []
deriving DecidableEq, Repr

/-- The weekday names indexed by `datetime.weekday()` in
`_evaluate_time_based`. -/
def dayNames : List String := ["mon", "tue", "wed", "thu", "fri", "sat", "sun"]

/-- `TriggerEngine._evaluate_time_based`: exact hour/minute match,
optional weekday restriction, and a 23-hour cooldown on `last_fired`.
`hours_since < 23` on float hours is `diff < 23*3600` on seconds. -/
def evaluateTimeBased (cond : Condition) (now : DateTime)
    (lastFired : Option DateTime) : Bool :=
  let targetHour := cond.hour.getD 0
  let targetMinute := cond.minute.getD 0
  let currentDay := (dayNames.get? now.weekday).getD ""
  if !cond.days.isEmpty && !cond.days.contains currentDay then false
  else if now.hour ≠ targetHour || now.minute ≠ targetMinute then false
  else
    match lastFired with
    | some lf => if diffSec now lf < 23 * 3600 then false else true
    | none => true

/-- `TriggerEngine._evaluate_inactivity`: fires when the last message is
at least `hours` old and any previous firing is also at least `hours`
old. -/
def evaluateInactivity (cond : Condition) (ctx : Context)
    (lastFired : Option DateTime) : Bool :=
  let thresholdHours := cond.hours.getD 4
  match ctx.lastMessageTime with
  | none => false
  | some lm =>
      let now := ctx.currentTime
      if diffSec now lm < thresholdHours * 3600 then false
      else
        match lastFired with
        | some lf => if diffSec now lf < thresholdHours * 3600 then false else true
        | none => true

/-- The `for schedule in times` loop of `TriggerEngine._evaluate_schedule`:
a matching hour:minute entry fires unless the one-hour cooldown applies,
in which case the loop continues. -/
def scheduleLoop (now : DateTime) (lastFired : Option DateTime) :
    List DateTime → Bool
  | [] => false
  | s :: rest =>
      if now.hour == s.hour && now.minute == s.minute then
        match lastFired with
        | some lf =>
            if diffSec now lf < 3600 then scheduleLoop now lastFired rest else true
        | none => true
      else scheduleLoop now lastFired rest

/-- `TriggerEngine._evaluate_schedule`. -/
def evaluateSchedule (cond : Condition) (now : DateTime)
    (lastFired : Option DateTime) : Bool :=
  scheduleLoop now lastFired cond.times

/-- `TriggerEngine._evaluate_keyword`: any recent message whose lowercased
content contains any lowercased keyword.  `last_fired` is not consulted. -/
def evaluateKeyword (cond : Condition) (ctx : Context) : Bool :=
  ctx.recentMessages.any (fun m =>
    cond.keywords.any (fun k =>
      StrUtil.strContains (StrUtil.pyLower m.content) (StrUtil.pyLower k)))

/-- `TriggerEngine._evaluate_pattern`: daily (24-hour cooldown) or weekly
(7-day cooldown) firing at the top of the configured hour. -/
def evaluatePattern (cond : Condition) (ctx : Context)
    (lastFired : Option DateTime) : Bool :=
  let now := ctx.currentTime
  if cond.patternType == some "daily" then
    let targetHour := cond.hour.getD 12
    if now.hour == targetHour && now.minute == 0 then
      match lastFired with
      | some lf => if diffSec now lf < 86400 then false else true
      | none => true
    else false
  else if cond.patternType == some "weekly" then
    let targetDay := cond.day.getD 0
    let targetHour := cond.hour.getD 12
    if now.weekday == targetDay && now.hour == targetHour && now.minute == 0 then
      match lastFired with
      | some lf => if diffSec now lf < 604800 then false else true
      | none => true
    else false
  else false

/-- `TriggerEngine.evaluate(trigger, context)`: disabled triggers never
fire; otherwise dispatch on the trigger type. -/
def evaluate (t : Trigger) (ctx : Context) : Bool :=
  if !t.enabled then false
  else
    match t.type with
    | .timeBased => evaluateTimeBased t.condition ctx.currentTime t.lastFired
    | .inactivity => evaluateInactivity t.condition ctx t.lastFired
    | .schedule => evaluateSchedule t.condition ctx.currentTime t.lastFired
    | .keyword => evaluateKeyword t.condition ctx
    | .pattern => evaluatePattern t.condition ctx t.lastFired

/-- The in-memory effect of `TriggerEngine.mark_fired(trigger_id)`: set
`last_fired = now` on the first trigger with the matching id (the YAML
persistence and the best-effort `TriggerLog` row do not affect
evaluation). -/
def mark_fired (ts : List Trigger) (triggerId : String) (now : DateTime) :
    List Trigger :=
  match ts with
  | [] => []
  | t :: rest =>
      if t.id == triggerId then { t with lastFired := some now } :: rest
      else t :: mark_fired rest triggerId now

end Triggers

namespace Ctx

/-- One context message, as the `{role, content}` dicts of
`core/context.py`. -/
structure CtxMsg where
  role : String
  content : String
deriving DecidableEq, Repr

/-- Total `len(content)` over a message list. -/
def totalChars (msgs : List CtxMsg) : Nat :=
  (msgs.map (fun m => m.content.length)).sum

/-- The `for msg in reversed(conversation_messages)` loop of
`truncate_context`: walk the reversed conversation, accumulate accepted
character counts, insert each accepted message at the front of the kept
list, and break at the first message that does not fit. -/
def keepLoop : List CtxMsg → Nat → Nat → List CtxMsg
  | [], _, _ => []
  | m :: rest, total, remaining =>
      if total + m.content.length ≤ remaining then
        keepLoop rest (total + m.content.length) remaining ++ [m]
      else []

/-- `truncate_context(messages, max_tokens)` of `core/context.py`:
4 characters per token; system messages stay in front; when the
remaining budget after system messages is not positive, only the first
system message survives. -/
def truncate_context (messages : List CtxMsg) (maxTokens : Nat) : List CtxMsg :=
  if messages.isEmpty then messages
  else
    let maxChars := maxTokens * 4
    let systemMessages := messages.filter (fun m => m.role == "system")
    let conversationMessages := messages.filter (fun m => !(m.role == "system"))
    let systemChars := totalChars systemMessages
    if maxChars ≤ systemChars then systemMessages.take 1
    else systemMessages ++ keepLoop conversationMessages.reverse 0 (maxChars - systemChars)

/-- The acceptance walk as the specification words it: starting from the
most recent message, accept messages while they fit the remaining
budget, then stop.  Written from the spec, producing the accepted
messages newest-first; to be compared with the source-translated
`keepLoop`. -/
def greedyTake (budget : Nat) : List CtxMsg → List CtxMsg
  | [] => []
  | m :: rest =>
      if m.content.length ≤ budget then m :: greedyTake (budget - m.content.length) rest
      else []

end Ctx

/-!  Helper lemmas shared by the claim theorems. -/

namespace StrUtil

theorem listPrefixOf_append (n ys : List Char) : listPrefixOf n (n ++ ys) = true := by
  induction n with
  | nil => rfl
  | cons a as ih => simp [listPrefixOf, ih]

theorem listPrefixOf_mono (n : List Char) :
    ∀ l ys, listPrefixOf n l = true → listPrefixOf n (l ++ ys) = true := by
  induction n with
  | nil => intro l ys _; rfl
  | cons a as ih =>
      intro l ys h
      cases l with
      | nil => simp [listPrefixOf] at h
      | cons b bs =>
          simp only [listPrefixOf, Bool.and_eq_true] at h ⊢
          exact ⟨h.1, ih bs ys h.2⟩

theorem listSub_of_prefixOf (n l : List Char) (h : listPrefixOf n l = true) :
    listSub n l = true := by
  cases l with
  | nil =>
      cases n with
      | nil => rfl
      | cons a as => simp [listPrefixOf] at h
  | cons b bs => simp [listSub, h]

theorem listSub_append_pre (n : List Char) :
    ∀ xs l, listSub n l = true → listSub n (xs ++ l) = true := by
  intro xs
  induction xs with
  | nil => intro l h; simpa using h
  | cons x xt ih =>
      intro l h
      simp only [List.cons_append, listSub, Bool.or_eq_true]
      exact Or.inr (ih l h)

theorem listSub_append_post (n : List Char) :
    ∀ l ys, listSub n l = true → listSub n (l ++ ys) = true := by
  intro l
  induction l with
  | nil =>
      intro ys h
      simp only [listSub] at h
      simp only [List.nil_append]
      exact listSub_of_prefixOf n ys (by cases n with
        | nil => rfl
        | cons a as => simp [List.isEmpty] at h)
  | cons b bs ih =>
      intro ys h
      simp only [listSub, Bool.or_eq_true] at h
      simp only [List.cons_append, listSub, Bool.or_eq_true]
      cases h with
      | inl hp => exact Or.inl (by simpa using listPrefixOf_mono n (b :: bs) ys hp)
      | inr hs => exact Or.inr (ih ys hs)

theorem strContains_append_right (a b s : String) (h : strContains b s = true) :
    strContains (a ++ b) s = true := by
  unfold strContains at h ⊢
  rw [String.data_append]
  exact listSub_append_pre s.data a.data b.data h

theorem strContains_append_left (a b s : String) (h : strContains a s = true) :
    strContains (a ++ b) s = true := by
  unfold strContains at h ⊢
  rw [String.data_append]
  exact listSub_append_post s.data a.data b.data h

theorem strContains_self_append (s t : String) : strContains (s ++ t) s = true := by
  unfold strContains
  rw [String.data_append]
  exact listSub_of_prefixOf s.data (s.data ++ t.data) (listPrefixOf_append s.data t.data)

theorem strContains_self (s : String) : strContains s s = true := by
  unfold strContains
  exact listSub_of_prefixOf s.data s.data
    (by simpa using listPrefixOf_append s.data [])

theorem joinComma_contains : ∀ (l : List String) (s : String), s ∈ l →
    strContains (joinComma l) s = true := by
  intro l
  induction l with
  | nil => intro s h; cases h
  | cons a rest ih =>
      intro s h
      cases h with
      | head =>
          cases rest with
          | nil => exact strContains_self a
          | cons b bt =>
              show strContains (a ++ ", " ++ joinComma (b :: bt)) a = true
              exact strContains_append_left _ _ _ (strContains_self_append a ", ")
      | tail _ hmem =>
          cases rest with
          | nil => cases hmem
          | cons b bt =>
              show strContains (a ++ ", " ++ joinComma (b :: bt)) s = true
              exact strContains_append_right _ _ _ (ih s hmem)

end StrUtil

/-!  Claim C1 — thread state transitions. -/

/-- Claim C1, counterexample.  The claim states that `resolved` is
terminal: no `update_state` call succeeds in moving a resolved thread to
another state.  On a database holding one resolved thread, the call
`update_state(t, "open")` succeeds and sets the state to open. -/
theorem c1_resolved_to_open_cex :
    ThreadManager.update_state [("t", ThreadManager.TState.tsResolved)] "t" "open" =
      Except.ok [("t", ThreadManager.TState.tsOpen)] := by
  rfl

/-- Claim C1, amended.  `update_state` validates only the state string
(case-insensitively, rejecting anything outside open/waiting/resolved
with an error) and the thread's existence; it never consults the current
state, so every transition between the three states — including away
from `resolved` — succeeds and overwrites the state column. -/
theorem lookup_map_overwrite (tid : String) (ns : ThreadManager.TState) :
    ∀ db : ThreadManager.ThreadDb, (List.lookup tid db).isSome = true →
      List.lookup tid (db.map (fun p => if p.1 == tid then (p.1, ns) else p)) =
        some ns := by
  intro db
  induction db with
  | nil => intro h; simp [List.lookup] at h
  | cons p rest ih =>
      obtain ⟨pid, pst⟩ := p
      intro h
      by_cases hp : pid = tid
      · subst hp
        simp [List.map_cons, List.lookup_cons]
      · have h1 : (pid == tid) = false := beq_eq_false_iff_ne.mpr hp
        have h2 : (tid == pid) = false := beq_eq_false_iff_ne.mpr (Ne.symm hp)
        simp only [List.lookup_cons, h2] at h
        simp only [List.map_cons, h1, Bool.false_eq_true, if_false, List.lookup_cons, h2]
        exact ih h

theorem c1_update_state_amended (db : ThreadManager.ThreadDb) (tid s : String) :
    (∀ ns, ThreadManager.stateMap (StrUtil.pyLower s) = some ns →
      (List.lookup tid db).isSome = true →
      ∃ db', ThreadManager.update_state db tid s = Except.ok db' ∧
        List.lookup tid db' = some ns) ∧
    (ThreadManager.stateMap (StrUtil.pyLower s) = none →
      ThreadManager.update_state db tid s =
        Except.error ("Invalid thread state: " ++ s ++
          ". Must be open, waiting, or resolved.")) := by
  constructor
  · intro ns hns hold
    refine ⟨db.map (fun p => if p.1 == tid then (p.1, ns) else p), ?_, ?_⟩
    · unfold ThreadManager.update_state
      rw [hns]
      obtain ⟨old, holdv⟩ := Option.isSome_iff_exists.mp hold
      rw [holdv]
    · exact lookup_map_overwrite tid ns db hold
  · intro hnone
    unfold ThreadManager.update_state
    rw [hnone]

/-- Claim C1, witness: a waiting thread moved to resolved. -/
theorem c1_witness :
    ThreadManager.stateMap (StrUtil.pyLower "resolved") = some ThreadManager.TState.tsResolved ∧
    (List.lookup "t" [("t", ThreadManager.TState.tsWaiting)]).isSome = true ∧
    ∃ db', ThreadManager.update_state [("t", ThreadManager.TState.tsWaiting)] "t"
        "resolved" = Except.ok db' ∧
      List.lookup "t" db' = some ThreadManager.TState.tsResolved := by
  refine ⟨by rfl, by rfl, ?_⟩
  exact (c1_update_state_amended [("t", ThreadManager.TState.tsWaiting)] "t"
    "resolved").1 ThreadManager.TState.tsResolved (by rfl) (by rfl)

/-!  Claim C4 — confirmation round-trip fail-closed semantics. -/

/-- Claim C4, confirmed.  `request_confirm` returns true exactly when a
bot token is configured, the transport send succeeds, and the first
terminating reply (from the configured user, trimming and lowercasing to
"yes" or "no") observed before the deadline is "yes".  Consequently it
returns false on transport failure, on timeout (no terminating reply in
the polled updates), and whenever the decisive reply is anything but a
case-insensitive "yes". -/
theorem c4_request_confirm_iff (env : Sandbox.ConfirmEnv) :
    Sandbox.request_confirm env = true ↔
      env.botToken = true ∧ env.sendOk = true ∧
        ∃ u, env.updates.find? (Sandbox.isTerminating env.userId) = some u ∧
          StrUtil.pyLower (StrUtil.pyStrip u.text) = "yes" := by
  have hloop : ∀ l : List Sandbox.Update,
      Sandbox.pollLoop env.userId l = true ↔
        ∃ u, l.find? (Sandbox.isTerminating env.userId) = some u ∧
          StrUtil.pyLower (StrUtil.pyStrip u.text) = "yes" := by
    intro l
    induction l with
    | nil => simp [Sandbox.pollLoop]
    | cons u rest ih =>
        by_cases hterm : Sandbox.isTerminating env.userId u = true
        · simp only [Sandbox.pollLoop, hterm, if_true, List.find?, hterm]
          constructor
          · intro hy
            exact ⟨u, rfl, by simpa using hy⟩
          · rintro ⟨v, hv, hy⟩
            cases hv
            simpa using hy
        · have hterm' : Sandbox.isTerminating env.userId u = false := by
            simpa using hterm
          simp only [Sandbox.pollLoop, hterm', if_false, List.find?, hterm']
          simpa using ih
  unfold Sandbox.request_confirm
  by_cases hb : env.botToken = true
  · by_cases hs : env.sendOk = true
    · simp [hb, hs, hloop env.updates]
    · have hs' : env.sendOk = false := by simpa using hs
      simp [hb, hs']
  · have hb' : env.botToken = false := by simpa using hb
    simp [hb']

/-!  Claim C3 — requires_confirm propagation through check. -/

theorem checkFileSystem_confirm (ex : String → String) (a : String)
    (sec : Sandbox.PolicySection) (d : Sandbox.Details) :
    (Sandbox.checkFileSystem ex a sec d).allowed = true →
    (Sandbox.checkFileSystem ex a sec d).requiresConfirm = sec.requireConfirm := by
  unfold Sandbox.checkFileSystem
  dsimp only
  split_ifs <;> simp_all

theorem checkTerminal_confirm (a : String) (sec : Sandbox.PolicySection)
    (d : Sandbox.Details) :
    (Sandbox.checkTerminal a sec d).allowed = true →
    (Sandbox.checkTerminal a sec d).requiresConfirm = sec.requireConfirm := by
  unfold Sandbox.checkTerminal
  cases hf : sec.blockedCommands.find? (fun b => StrUtil.strContains d.command b) <;>
    simp_all

theorem checkAppControl_confirm (a : String) (sec : Sandbox.PolicySection)
    (d : Sandbox.Details) :
    (Sandbox.checkAppControl a sec d).allowed = true →
    (Sandbox.checkAppControl a sec d).requiresConfirm = sec.requireConfirm := by
  unfold Sandbox.checkAppControl
  dsimp only
  split_ifs <;> simp_all

theorem checkCalendar_confirm (a : String) (sec : Sandbox.PolicySection) :
    (Sandbox.checkCalendar a sec).allowed = true →
    (Sandbox.checkCalendar a sec).requiresConfirm = sec.requireConfirm := by
  unfold Sandbox.checkCalendar
  split_ifs <;> simp_all

theorem checkBrowsing_confirm (a : String) (sec : Sandbox.PolicySection)
    (d : Sandbox.Details) :
    (Sandbox.checkBrowsing a sec d).allowed = true →
    (Sandbox.checkBrowsing a sec d).requiresConfirm = sec.requireConfirm := by
  unfold Sandbox.checkBrowsing
  dsimp only
  split_ifs <;> simp_all
  all_goals (cases hf :
    sec.blockedDomains.find? (fun dm => StrUtil.strContains d.url dm) <;> simp_all)

theorem check_eq_specific (expand : String → String) (policy : Sandbox.Policy)
    (action key : String) (details : Sandbox.Details) (sec : Sandbox.PolicySection)
    (h1 : List.lookup action Sandbox.actionToSection = some key)
    (h2 : Sandbox.validActions.contains action = true)
    (h3 : policy key = some sec) (h4 : sec.enabled = true) :
    Sandbox.check expand policy action details =
      Sandbox.checkActionSpecific expand action key sec details := by
  have h2' : action ∈ Sandbox.validActions := List.mem_of_elem_eq_true h2
  unfold Sandbox.check
  simp [h2', h1, h3, h4]

theorem check_disabled (expand : String → String) (policy : Sandbox.Policy)
    (action key : String) (details : Sandbox.Details) (sec : Sandbox.PolicySection)
    (h1 : List.lookup action Sandbox.actionToSection = some key)
    (h2 : Sandbox.validActions.contains action = true)
    (h3 : policy key = some sec) (h4 : sec.enabled = false) :
    (Sandbox.check expand policy action details).allowed = false := by
  have h2' : action ∈ Sandbox.validActions := List.mem_of_elem_eq_true h2
  unfold Sandbox.check
  simp [h2', h1, h3, h4]

/-- Claim C3, amended.  When `check(action, details)` passes the
section-enabled check and all action-specific fine-grained checks
(`allowed = true`), the decision's `requires_confirm` equals the resolved
section's `require_confirm` flag (false when the flag is absent, which
the model renders as the record default) for the sections `file_system`,
`terminal`, `app_control`, `input_control`, `calendar` and `browsing` —
but the `search` and `system_info` branches return `requires_confirm =
false` unconditionally, ignoring the section's flag. -/
theorem c3_requires_confirm_amended (expand : String → String)
    (policy : Sandbox.Policy) (details : Sandbox.Details)
    (sec : Sandbox.PolicySection) (action key : String)
    (hmem : (action, key) ∈ Sandbox.actionToSection)
    (hpol : policy key = some sec)
    (hall : (Sandbox.check expand policy action details).allowed = true) :
    (Sandbox.check expand policy action details).requiresConfirm =
      (if key == "search" || key == "system_info" then false
       else sec.requireConfirm) := by
  have hcont : Sandbox.validActions.contains action = true := by
    have hall' : ∀ p ∈ Sandbox.actionToSection,
        Sandbox.validActions.contains p.1 = true := by decide
    exact hall' (action, key) hmem
  have hlook : List.lookup action Sandbox.actionToSection = some key := by
    have hall' : ∀ p ∈ Sandbox.actionToSection,
        List.lookup p.1 Sandbox.actionToSection = some p.2 := by decide
    exact hall' (action, key) hmem
  have hen : sec.enabled = true := by
    by_cases h : sec.enabled = true
    · exact h
    · have hf : sec.enabled = false := by simpa using h
      rw [check_disabled expand policy action key details sec hlook hcont hpol hf]
        at hall
      cases hall
  rw [check_eq_specific expand policy action key details sec hlook hcont hpol hen]
    at hall ⊢
  have hkey : key = "file_system" ∨ key = "terminal" ∨ key = "app_control" ∨
      key = "input_control" ∨ key = "calendar" ∨ key = "browsing" ∨
      key = "search" ∨ key = "system_info" := by
    have hall' : ∀ p ∈ Sandbox.actionToSection,
        p.2 = "file_system" ∨ p.2 = "terminal" ∨ p.2 = "app_control" ∨
        p.2 = "input_control" ∨ p.2 = "calendar" ∨ p.2 = "browsing" ∨
        p.2 = "search" ∨ p.2 = "system_info" := by decide
    exact hall' (action, key) hmem
  rcases hkey with rfl | rfl | rfl | rfl | rfl | rfl | rfl | rfl
  · have e : Sandbox.checkActionSpecific expand action "file_system" sec details =
        Sandbox.checkFileSystem expand action sec details := rfl
    rw [e] at hall ⊢
    simpa using checkFileSystem_confirm expand action sec details hall
  · have e : Sandbox.checkActionSpecific expand action "terminal" sec details =
        Sandbox.checkTerminal action sec details := rfl
    rw [e] at hall ⊢
    simpa using checkTerminal_confirm action sec details hall
  · have e : Sandbox.checkActionSpecific expand action "app_control" sec details =
        Sandbox.checkAppControl action sec details := rfl
    rw [e] at hall ⊢
    simpa using checkAppControl_confirm action sec details hall
  · have e : Sandbox.checkActionSpecific expand action "input_control" sec details =
        Sandbox.checkSimpleWithConfirm action sec "input_control" := rfl
    rw [e] at hall ⊢
    simp [Sandbox.checkSimpleWithConfirm]
  · have e : Sandbox.checkActionSpecific expand action "calendar" sec details =
        Sandbox.checkCalendar action sec := rfl
    rw [e] at hall ⊢
    simpa using checkCalendar_confirm action sec hall
  · have e : Sandbox.checkActionSpecific expand action "browsing" sec details =
        Sandbox.checkBrowsing action sec details := rfl
    rw [e] at hall ⊢
    simpa using checkBrowsing_confirm action sec details hall
  · rfl
  · rfl

/-- A policy whose `search` section is enabled and demands confirmation. -/
def searchPolicy : Sandbox.Policy := fun k =>
  if k == "search" then some { enabled := true, requireConfirm := true } else none

/-- Claim C3, counterexample.  With a `search` section that sets
`require_confirm = true`, a passing `check("browser.search")` returns
`allowed = true` but `requires_confirm = false`, ignoring the flag —
the claim demands `requires_confirm = true` for every mapped section,
including search. -/
theorem c3_search_confirm_cex :
    (Sandbox.check id searchPolicy "browser.search" {}).allowed = true ∧
    (Sandbox.check id searchPolicy "browser.search" {}).requiresConfirm = false ∧
    searchPolicy "search" = some { enabled := true, requireConfirm := true } := by
  refine ⟨by decide, by decide, by decide⟩

/-- A policy whose `terminal` section is enabled and demands confirmation. -/
def termPolicy : Sandbox.Policy := fun k =>
  if k == "terminal" then some { enabled := true, requireConfirm := true } else none

/-- Claim C3, witness: a passing terminal check carries the section's
`require_confirm` flag. -/
theorem c3_witness :
    ("terminal.run", "terminal") ∈ Sandbox.actionToSection ∧
    termPolicy "terminal" = some { enabled := true, requireConfirm := true } ∧
    (Sandbox.check id termPolicy "terminal.run" {}).allowed = true ∧
    (Sandbox.check id termPolicy "terminal.run" {}).requiresConfirm = true := by
  refine ⟨by decide, by decide, by decide, ?_⟩
  have h := c3_requires_confirm_amended id termPolicy {}
    { enabled := true, requireConfirm := true } "terminal.run" "terminal"
    (by decide) (by decide) (by decide)
  simpa using h

/-!  Claim C2 — task routing and fallback. -/

theorem walkPriorityList_eq_find (e : Orchestrator.ProviderEnv) :
    ∀ l : List String,
      Orchestrator.walkPriorityList e l =
        (l.find? (fun p =>
          Orchestrator.engineAvailable e (Orchestrator.normalizeEngineName p))).map
          Orchestrator.normalizeEngineName := by
  intro l
  induction l with
  | nil => rfl
  | cons p rest ih =>
      by_cases hp : Orchestrator.engineAvailable e (Orchestrator.normalizeEngineName p)
        = true
      · simp [Orchestrator.walkPriorityList, List.find?, hp]
      · have hp' : Orchestrator.engineAvailable e (Orchestrator.normalizeEngineName p)
            = false := by simpa using hp
        simp [Orchestrator.walkPriorityList, List.find?, hp', ih]

/-- Claim C2, amended.  For every task type other than "local" (which
short-circuits to the local engine), `route` walks only the task type's
priority list — unknown task types fall back to the reasoning list — and
returns the first provider whose engine is available.  There is no second
walk of the full engine roster: when no provider in the priority list is
available, `route` raises an error whose diagnostic names (without a
per-provider reason) every provider the auth manager reports unavailable,
even if an engine outside the list is available. -/
theorem c2_route_amended (e : Orchestrator.ProviderEnv) (task : String)
    (hn : StrUtil.pyStrip (StrUtil.pyLower task) ≠ "local") :
    Orchestrator.route e task =
      (match Orchestrator.walkPriorityList e
          (Orchestrator.priorityFor (StrUtil.pyStrip (StrUtil.pyLower task))) with
        | some c => Except.ok c
        | none => Except.error (Orchestrator.routeErrorMsg e task)) ∧
    ∀ p, p ∈ Orchestrator.statusMissing e →
      StrUtil.strContains (Orchestrator.routeErrorMsg e task) p = true := by
  constructor
  · have hn' : (StrUtil.pyStrip (StrUtil.pyLower task) == "local") = false :=
      beq_eq_false_iff_ne.mpr hn
    unfold Orchestrator.route
    rw [walkPriorityList_eq_find]
    simp only [hn', Bool.false_eq_true, if_false]
    cases hf : (Orchestrator.priorityFor
        (StrUtil.pyStrip (StrUtil.pyLower task))).find? (fun p =>
          Orchestrator.engineAvailable e (Orchestrator.normalizeEngineName p)) <;>
      simp [hf]
  · intro p hp
    have hne : Orchestrator.statusMissing e ≠ [] := by
      intro h
      rw [h] at hp
      cases hp
    unfold Orchestrator.routeErrorMsg
    dsimp only
    have hmt : (if (Orchestrator.statusMissing e).isEmpty then "none"
        else StrUtil.joinComma (Orchestrator.statusMissing e)) =
        StrUtil.joinComma (Orchestrator.statusMissing e) := by
      rw [if_neg]
      simpa [List.isEmpty_iff] using hne
    rw [hmt]
    apply StrUtil.strContains_append_left
    apply StrUtil.strContains_append_right
    exact StrUtil.joinComma_contains (Orchestrator.statusMissing e) p hp

/-- The environment of the C2 counterexample and witness: only the openai
provider is credentialed and only its engine responds. -/
def envOpenaiOnly : Orchestrator.ProviderEnv :=
  ⟨fun p => p == "openai", fun c => c == "openai"⟩

/-- Claim C2, counterexample.  With only the openai engine available,
`route("fast")` raises (its priority list is groq, gemini, local,
anthropic) even though the openai engine is available — the claim's
promised second walk of the full engine roster does not exist. -/
theorem c2_no_roster_walk_cex :
    Orchestrator.route envOpenaiOnly "fast" =
      Except.error (Orchestrator.routeErrorMsg envOpenaiOnly "fast") ∧
    Orchestrator.engineAvailable envOpenaiOnly "openai" = true := by
  exact ⟨rfl, by decide⟩

/-- Claim C2, witness: with openai available, routing a "code" task
returns the openai engine (first in that priority list). -/
theorem c2_witness :
    StrUtil.pyStrip (StrUtil.pyLower "code") ≠ "local" ∧
    Orchestrator.route envOpenaiOnly "code" = Except.ok "openai" := by
  refine ⟨by decide, ?_⟩
  have h := (c2_route_amended envOpenaiOnly "code" (by decide)).1
  rw [h]
  rfl

/-!  Claim C9 — context truncation. -/

theorem keepLoop_eq_greedyTake :
    ∀ (l : List Ctx.CtxMsg) (total remaining : Nat), total ≤ remaining →
      Ctx.keepLoop l total remaining =
        (Ctx.greedyTake (remaining - total) l).reverse := by
  intro l
  induction l with
  | nil => intro total remaining _; rfl
  | cons m rest ih =>
      intro total remaining hle
      by_cases hc : total + m.content.length ≤ remaining
      · have hc' : m.content.length ≤ remaining - total := by omega
        rw [Ctx.keepLoop, if_pos hc, Ctx.greedyTake, if_pos hc']
        rw [ih (total + m.content.length) remaining hc]
        rw [List.reverse_cons, Nat.sub_sub]
      · have hc' : ¬ m.content.length ≤ remaining - total := fun hcc => hc (by omega)
        rw [Ctx.keepLoop, if_neg hc, Ctx.greedyTake, if_neg hc']
        rfl

theorem greedyTake_chars :
    ∀ (budget : Nat) (l : List Ctx.CtxMsg),
      Ctx.totalChars (Ctx.greedyTake budget l) ≤ budget := by
  intro budget l
  induction l generalizing budget with
  | nil => simp [Ctx.greedyTake, Ctx.totalChars]
  | cons m rest ih =>
      by_cases hc : m.content.length ≤ budget
      · rw [Ctx.greedyTake, if_pos hc]
        have := ih (budget - m.content.length)
        simp only [Ctx.totalChars, List.map_cons, List.sum_cons] at *
        omega
      · rw [Ctx.greedyTake, if_neg hc]
        simp [Ctx.totalChars]

theorem totalChars_reverse (l : List Ctx.CtxMsg) :
    Ctx.totalChars l.reverse = Ctx.totalChars l := by
  unfold Ctx.totalChars
  rw [List.map_reverse, List.sum_reverse]

theorem totalChars_append (l₁ l₂ : List Ctx.CtxMsg) :
    Ctx.totalChars (l₁ ++ l₂) = Ctx.totalChars l₁ + Ctx.totalChars l₂ := by
  unfold Ctx.totalChars
  rw [List.map_append, List.sum_append]

/-- Claim C9, amended.  `truncate_context(msgs, B)` keeps all system
messages in front followed by the reverse of the spec's acceptance walk
(`greedyTake`, newest non-system message first, accepted while it fits
the remaining budget), and the returned list's total characters divided
by 4 is at most `B` — but the degenerate branch that returns only the
first system message fires as soon as the system messages alone reach or
exceed the budget (`system chars ≥ 4·B`), not only when they strictly
exceed it. -/
theorem c9_truncate_amended (msgs : List Ctx.CtxMsg) (B : Nat) :
    (Ctx.truncate_context msgs B =
      (let sys := msgs.filter (fun m => m.role == "system")
       let conv := msgs.filter (fun m => !(m.role == "system"))
       if B * 4 ≤ Ctx.totalChars sys then sys.take 1
       else sys ++ (Ctx.greedyTake (B * 4 - Ctx.totalChars sys) conv.reverse).reverse)) ∧
    (Ctx.totalChars (msgs.filter (fun m => m.role == "system")) < B * 4 →
      Ctx.totalChars (Ctx.truncate_context msgs B) ≤ B * 4) := by
  have hmain : Ctx.truncate_context msgs B =
      (let sys := msgs.filter (fun m => m.role == "system")
       let conv := msgs.filter (fun m => !(m.role == "system"))
       if B * 4 ≤ Ctx.totalChars sys then sys.take 1
       else sys ++ (Ctx.greedyTake (B * 4 - Ctx.totalChars sys) conv.reverse).reverse) := by
    by_cases hemp : msgs.isEmpty = true
    · have hnil : msgs = [] := List.isEmpty_iff.mp hemp
      subst hnil
      rw [show Ctx.truncate_context [] B = [] from rfl]
      dsimp only [List.filter_nil]
      by_cases hb : B * 4 ≤ Ctx.totalChars ([] : List Ctx.CtxMsg)
      · rw [if_pos hb]; rfl
      · rw [if_neg hb]; rfl
    · have hemp' : msgs.isEmpty = false := by simpa using hemp
      unfold Ctx.truncate_context
      rw [hemp']
      simp only [Bool.false_eq_true, if_false]
      by_cases hb : B * 4 ≤ Ctx.totalChars (msgs.filter (fun m => m.role == "system"))
      · rw [if_pos hb, if_pos hb]
      · rw [if_neg hb, if_neg hb]
        congr 1
        rw [keepLoop_eq_greedyTake _ 0 _ (Nat.zero_le _), Nat.sub_zero]
  refine ⟨hmain, ?_⟩
  intro hlt
  rw [hmain]
  dsimp only
  rw [if_neg (by omega)]
  rw [totalChars_append, totalChars_reverse]
  have := greedyTake_chars
    (B * 4 - Ctx.totalChars (msgs.filter (fun m => m.role == "system")))
    (msgs.filter (fun m => !(m.role == "system"))).reverse
  omega

/-- Claim C9, counterexample.  With two system messages of two characters
each and budget B = 1, the system messages total exactly the budget
(4 chars = 4·B, not exceeding it), yet `truncate_context` drops the
second system message — the claim requires all system messages in front
whenever they do not exceed the budget. -/
theorem c9_boundary_cex :
    Ctx.truncate_context [⟨"system", "ab"⟩, ⟨"system", "cd"⟩] 1 =
      [⟨"system", "ab"⟩] ∧
    Ctx.totalChars ([⟨"system", "ab"⟩, ⟨"system", "cd"⟩].filter
      (fun m => m.role == "system")) = 1 * 4 ∧
    (⟨"system", "cd"⟩ : Ctx.CtxMsg) ∉ Ctx.truncate_context
      [⟨"system", "ab"⟩, ⟨"system", "cd"⟩] 1 := by
  refine ⟨by decide, by decide, by decide⟩

/-- Claim C9, witness: one system message and two chat messages against a
budget of 3 tokens; the returned context fits the budget. -/
theorem c9_witness :
    Ctx.totalChars ([⟨"system", "abcd"⟩, ⟨"user", "hi"⟩, ⟨"assistant", "okay"⟩].filter
      (fun m => m.role == "system")) < 3 * 4 ∧
    Ctx.totalChars (Ctx.truncate_context
      [⟨"system", "abcd"⟩, ⟨"user", "hi"⟩, ⟨"assistant", "okay"⟩] 3) ≤ 3 * 4 := by
  refine ⟨by decide, ?_⟩
  exact (c9_truncate_amended
    [⟨"system", "abcd"⟩, ⟨"user", "hi"⟩, ⟨"assistant", "okay"⟩] 3).2 (by decide)

/-!  Claim C8 — vector-store upsert metadata and replacement. -/

theorem lookup_append_of_none {k : String} {l₁ l₂ : VectorStore.Meta}
    (h : List.lookup k l₁ = none) :
    List.lookup k (l₁ ++ l₂) = List.lookup k l₂ := by
  induction l₁ with
  | nil => rfl
  | cons p rest ih =>
      obtain ⟨pk, pv⟩ := p
      rw [List.cons_append, List.lookup_cons]
      rw [List.lookup_cons] at h
      cases hk : (k == pk) with
      | true => rw [hk] at h; cases h
      | false =>
          rw [hk] at h
          exact ih h

/-- Claim C8, amended.  Module-level `upsert(id, content, metadata)`
stores under `id` a metadata dict whose `text` field is the content only
when the caller metadata has no `text` key — `setdefault` preserves a
caller-supplied `text` value — and upserting the same id again replaces
the prior entry rather than adding a duplicate: exactly one stored entry
carries the id, and a repeated upsert of the id supersedes the first. -/
theorem c8_upsert_amended (store : VectorStore.Store) (docId content : String)
    (md : VectorStore.Meta) :
    ((VectorStore.upsert store docId content md).countP
      (fun en => en.id == docId) = 1) ∧
    (∀ en, en ∈ VectorStore.upsert store docId content md → en.id = docId →
      List.lookup "text" en.meta = some ((List.lookup "text" md).getD content)) ∧
    (∀ c₂ md₂,
      VectorStore.upsert (VectorStore.upsert store docId content md) docId c₂ md₂ =
        VectorStore.upsert store docId c₂ md₂) := by
  refine ⟨?_, ?_, ?_⟩
  · unfold VectorStore.upsert VectorStore.backendUpsert
    rw [List.countP_append]
    have h0 : (store.filter (fun en => !(en.id == docId))).countP
        (fun en => en.id == docId) = 0 := by
      rw [List.countP_eq_zero]
      intro en hen
      have := List.of_mem_filter hen
      simp at this
      simp [this]
    rw [h0]
    simp [List.countP_cons]
  · intro en hen hid
    unfold VectorStore.upsert VectorStore.backendUpsert at hen
    rcases List.mem_append.mp hen with hmem | hmem
    · have := List.of_mem_filter hmem
      rw [hid] at this
      simp at this
    · have he : en = ⟨docId, VectorStore.dictSetdefault md "text" content⟩ := by
        simpa using hmem
      subst he
      show List.lookup "text" (VectorStore.dictSetdefault md "text" content) = _
      unfold VectorStore.dictSetdefault
      cases hmd : List.lookup "text" md with
      | some v => simp [hmd]
      | none =>
          simp only [hmd, Option.isSome_none, Bool.false_eq_true, if_false]
          rw [lookup_append_of_none hmd]
          rfl
  · intro c₂ md₂
    unfold VectorStore.upsert VectorStore.backendUpsert
    congr 1
    rw [List.filter_append, List.filter_filter]
    have h1 : (List.filter (fun en => !(en.id == docId))
        [(⟨docId, VectorStore.dictSetdefault md "text" content⟩ :
          VectorStore.VecEntry)]) = [] := by simp
    rw [h1, List.append_nil]
    apply List.filter_congr
    intro en _
    simp [Bool.and_self]

/-- Claim C8, counterexample.  The claim states the stored `text` field
equals the given content even when the caller metadata already contains
a `text` key; `setdefault` keeps the caller's value instead. -/
theorem c8_text_preserved_cex :
    (VectorStore.upsert [] "d" "content" [("text", "other")]).map
      (fun en => List.lookup "text" en.meta) = [some "other"] ∧
    ¬ ((VectorStore.upsert [] "d" "content" [("text", "other")]).map
      (fun en => List.lookup "text" en.meta) = [some "content"]) := by
  exact ⟨by decide, by decide⟩

/-- Claim C8, witness: with no caller `text` key, the stored `text` field
is the content. -/
theorem c8_witness :
    (⟨"d", [("text", "c")]⟩ : VectorStore.VecEntry) ∈ VectorStore.upsert [] "d" "c" [] ∧
    List.lookup "text" [("text", "c")] =
      some ((List.lookup "text" ([] : VectorStore.Meta)).getD "c") := by
  refine ⟨by decide, ?_⟩
  exact (c8_upsert_amended [] "d" "c" []).2.1 ⟨"d", [("text", "c")]⟩ (by decide) rfl

/-!  Claim C5 — document deletion after ingest. -/

theorem vupsert_mem {s : VectorStore.Store} {docId c : String}
    {md : VectorStore.Meta} {en : VectorStore.VecEntry}
    (h : en ∈ VectorStore.upsert s docId c md) :
    en ∈ s ∨ en = ⟨docId, VectorStore.dictSetdefault md "text" c⟩ := by
  unfold VectorStore.upsert VectorStore.backendUpsert at h
  rcases List.mem_append.mp h with h | h
  · exact Or.inl (List.mem_of_mem_filter h)
  · exact Or.inr (by simpa using h)

theorem ingestLoop_mem (parent : String) (meta : VectorStore.Meta) :
    ∀ (chunks : List String) (i : Nat) (store : VectorStore.Store)
      (en : VectorStore.VecEntry),
      en ∈ Rag.ingestLoop parent meta chunks i store →
      en ∈ store ∨ ∃ j, j < chunks.length ∧ en.id = Rag.chunkId parent (i + j) := by
  intro chunks
  induction chunks with
  | nil => intro i store en h; exact Or.inl h
  | cons c rest ih =>
      intro i store en h
      rcases ih (i + 1) _ en h with hin | ⟨j, hj, hid⟩
      · rcases vupsert_mem hin with hin' | he
        · exact Or.inl hin'
        · refine Or.inr ⟨0, by simp, ?_⟩
          rw [he, Nat.add_zero]
      · exact Or.inr ⟨j + 1, by simpa using Nat.succ_lt_succ hj,
          by rw [hid]; congr 1; omega⟩

theorem ingestLoop_append_last (parent : String) (meta : VectorStore.Meta) :
    ∀ (cs : List String) (c : String) (i : Nat) (store : VectorStore.Store),
      Rag.ingestLoop parent meta (cs ++ [c]) i store =
        VectorStore.upsert (Rag.ingestLoop parent meta cs i store)
          (Rag.chunkId parent (i + cs.length)) c
          (VectorStore.dictSet (VectorStore.dictSet meta "chunk_index"
            (toString (i + cs.length))) "text" c) := by
  intro cs
  induction cs with
  | nil => intro c i store; simp [Rag.ingestLoop]
  | cons d rest ih =>
      intro c i store
      show Rag.ingestLoop parent meta (rest ++ [c]) (i + 1) _ = _
      rw [ih]
      have harith : i + 1 + rest.length = i + (rest.length + 1) := by omega
      rw [harith]
      rfl

theorem mem_candidateIds (p : String) (j : Nat) (hj : j < Rag.maxChunksPerDoc) :
    ((List.range Rag.maxChunksPerDoc).map (Rag.chunkId p)).contains
      (Rag.chunkId p j) = true := by
  have hmem : Rag.chunkId p j ∈ (List.range Rag.maxChunksPerDoc).map (Rag.chunkId p) :=
    List.mem_map.mpr ⟨j, List.mem_range.mpr hj, rfl⟩
  exact List.elem_iff.mpr hmem

/-- Claim C5, amended.  When the ingest produces at most 500 chunks
(`_MAX_CHUNKS_PER_DOC`) under a fresh parent id — no prior entry carries
it — `delete_document(p)` after `ingest` leaves zero vector entries whose
metadata `parent_doc_id` equals `p`; beyond 500 chunks the deterministic
candidate list is exhausted and later chunks survive. -/
theorem c5_delete_after_ingest_amended (store : VectorStore.Store)
    (text source userId p : String) (md : VectorStore.Meta) (chunks : List String)
    (hlen : chunks.length ≤ Rag.maxChunksPerDoc) (hp : p ≠ "")
    (hstore : ∀ en ∈ store, List.lookup "parent_doc_id" en.meta ≠ some p) :
    ∀ en ∈ Rag.delete_document (Rag.ingest store text source userId md chunks p).2 p,
      List.lookup "parent_doc_id" en.meta ≠ some p := by
  intro en hen
  have hpb : (p == "") = false := beq_eq_false_iff_ne.mpr hp
  unfold Rag.delete_document at hen
  rw [hpb] at hen
  simp only [Bool.false_eq_true, if_false] at hen
  unfold VectorStore.delete VectorStore.backendDelete at hen
  obtain ⟨hin, hpred⟩ := List.mem_filter.mp hen
  unfold Rag.ingest at hin
  by_cases hg1 : (StrUtil.pyStrip text == "") = true
  · rw [if_pos hg1] at hin
    exact hstore en hin
  · rw [if_neg hg1] at hin
    by_cases hg2 : chunks.isEmpty = true
    · rw [if_pos hg2] at hin
      exact hstore en hin
    · rw [if_neg hg2] at hin
      dsimp only at hin
      rcases ingestLoop_mem p _ chunks 0 store en hin with hin' | ⟨j, hj, hid⟩
      · exact hstore en hin'
      · exfalso
        have hjj : j < Rag.maxChunksPerDoc := lt_of_lt_of_le hj hlen
        have hc := mem_candidateIds p j hjj
        rw [Nat.zero_add] at hid
        rw [hid] at hpred
        rw [hc] at hpred
        cases hpred

/-- The document metadata `ingest` builds for the C5 counterexample
(source "s", user "u", parent "p", 501 chunks). -/
def c5Meta : VectorStore.Meta :=
  VectorStore.dictSet (VectorStore.dictSet (VectorStore.dictSet (VectorStore.dictSet
    (VectorStore.dictSet ([] : VectorStore.Meta) "source" "s") "user_id" "u")
    "parent_doc_id" "p") "total_chunks" (toString (List.replicate 501 "x").length))
    "chunk_index" (toString (0 + 500))

set_option maxRecDepth 8000 in
/-- Claim C5, counterexample.  An ingest of 501 chunks returns parent id
"p", but `delete_document("p")` only deletes the candidate ids
`p_chunk_0 … p_chunk_499`: the entry `p_chunk_500`, whose metadata
`parent_doc_id` is "p", survives — the claim promises zero surviving
entries regardless of the chunk count. -/
theorem c5_chunk_overflow_cex :
    (Rag.ingest [] "x" "s" "u" [] (List.replicate 501 "x") "p").1 = "p" ∧
    (Rag.delete_document (Rag.ingest [] "x" "s" "u" [] (List.replicate 501 "x") "p").2
      "p").any (fun en => List.lookup "parent_doc_id" en.meta == some "p") = true := by
  constructor
  · rfl
  · have h2 : (Rag.ingest [] "x" "s" "u" [] (List.replicate 501 "x") "p").2 =
        VectorStore.upsert
          (Rag.ingestLoop "p"
            (VectorStore.dictSet (VectorStore.dictSet (VectorStore.dictSet
              (VectorStore.dictSet ([] : VectorStore.Meta) "source" "s") "user_id" "u")
              "parent_doc_id" "p") "total_chunks"
              (toString (List.replicate 501 "x").length))
            (List.replicate 500 "x") 0 [])
          (Rag.chunkId "p" (0 + 500)) "x"
          (VectorStore.dictSet c5Meta "text" "x") := by
      rw [show (Rag.ingest [] "x" "s" "u" [] (List.replicate 501 "x") "p").2 =
          Rag.ingestLoop "p"
            (VectorStore.dictSet (VectorStore.dictSet (VectorStore.dictSet
              (VectorStore.dictSet ([] : VectorStore.Meta) "source" "s") "user_id" "u")
              "parent_doc_id" "p") "total_chunks"
              (toString (List.replicate 501 "x").length))
            (List.replicate 501 "x") 0 [] from rfl]
      rw [show (List.replicate 501 "x") = List.replicate 500 "x" ++ ["x"] from
        List.replicate_succ' 500 "x"]
      rw [ingestLoop_append_last]
      rfl
    rw [h2]
    apply List.any_eq_true.mpr
    refine ⟨⟨Rag.chunkId "p" (0 + 500),
      VectorStore.dictSetdefault (VectorStore.dictSet c5Meta "text" "x") "text" "x"⟩,
      ?_, by decide⟩
    unfold Rag.delete_document
    rw [if_neg (by decide)]
    unfold VectorStore.delete VectorStore.backendDelete
    apply List.mem_filter.mpr
    refine ⟨?_, by decide⟩
    unfold VectorStore.upsert VectorStore.backendUpsert
    apply List.mem_append_right
    exact List.mem_singleton_self _

/-- Claim C5, witness: a one-chunk ingest followed by delete_document
leaves no entry for the parent. -/
theorem c5_witness :
    (["x"].length ≤ Rag.maxChunksPerDoc) ∧ ("p" ≠ "") ∧
    (∀ en ∈ Rag.delete_document (Rag.ingest [] "x" "s" "u" [] ["x"] "p").2 "p",
      List.lookup "parent_doc_id" en.meta ≠ some "p") := by
  refine ⟨by decide, by decide, ?_⟩
  exact c5_delete_after_ingest_amended [] "x" "s" "u" "p" [] ["x"]
    (by decide) (by decide) (by intro en hen; cases hen)

/-!  Claim C6 — trigger cooldown after mark_fired. -/

theorem diffSec_self (now : Triggers.DateTime) : Triggers.diffSec now now = 0 := by
  simp [Triggers.diffSec]

theorem evaluateTimeBased_now_false (cond : Triggers.Condition)
    (now : Triggers.DateTime) :
    Triggers.evaluateTimeBased cond now (some now) = false := by
  unfold Triggers.evaluateTimeBased
  dsimp only
  simp only [diffSec_self]
  split_ifs <;> first | rfl | omega

theorem evaluateInactivity_now_false (cond : Triggers.Condition)
    (ctx : Triggers.Context) (hpos : 0 < cond.hours.getD 4) :
    Triggers.evaluateInactivity cond ctx (some ctx.currentTime) = false := by
  unfold Triggers.evaluateInactivity
  cases hlm : ctx.lastMessageTime with
  | none => rfl
  | some lm =>
      dsimp only
      simp only [diffSec_self]
      split_ifs <;> first | rfl | omega

theorem scheduleLoop_now_false (now : Triggers.DateTime) :
    ∀ times : List Triggers.DateTime,
      Triggers.scheduleLoop now (some now) times = false := by
  intro times
  induction times with
  | nil => rfl
  | cons s rest ih =>
      unfold Triggers.scheduleLoop
      dsimp only
      simp only [diffSec_self]
      split_ifs <;> first | exact ih | omega

theorem evaluatePattern_now_false (cond : Triggers.Condition)
    (ctx : Triggers.Context) :
    Triggers.evaluatePattern cond ctx (some ctx.currentTime) = false := by
  unfold Triggers.evaluatePattern
  dsimp only
  simp only [diffSec_self]
  split_ifs <;> first | rfl | omega

/-- Claim C6, amended.  Evaluation is a pure function of the trigger and
the context snapshot (the daemon always supplies `current_time`), so
identical inputs give identical results.  `mark_fired` sets `last_fired`
to the current time on the first matching trigger; re-evaluating the
updated trigger with the same context (whose `current_time` is that mark
time) returns false for the time_based, schedule and pattern types
unconditionally and for inactivity triggers with a positive hours
threshold — but keyword triggers never read `last_fired`, so their
result is unchanged by `mark_fired`. -/
theorem c6_cooldown_amended (t : Triggers.Trigger) (ctx : Triggers.Context) :
    (Triggers.mark_fired [t] t.id ctx.currentTime =
      [{ t with lastFired := some ctx.currentTime }]) ∧
    (t.type ≠ Triggers.TriggerType.keyword →
      (t.type = Triggers.TriggerType.inactivity → 0 < t.condition.hours.getD 4) →
      Triggers.evaluate { t with lastFired := some ctx.currentTime } ctx = false) ∧
    (t.type = Triggers.TriggerType.keyword → ∀ lf,
      Triggers.evaluate { t with lastFired := lf } ctx = Triggers.evaluate t ctx) := by
  refine ⟨?_, ?_, ?_⟩
  · simp [Triggers.mark_fired]
  · intro hk hpos
    cases henb : t.enabled
    · simp [Triggers.evaluate, henb]
    · cases htype : t.type with
      | timeBased =>
          simp only [Triggers.evaluate, henb, htype, Bool.not_true,
            Bool.false_eq_true, if_false]
          exact evaluateTimeBased_now_false t.condition ctx.currentTime
      | inactivity =>
          simp only [Triggers.evaluate, henb, htype, Bool.not_true,
            Bool.false_eq_true, if_false]
          exact evaluateInactivity_now_false t.condition ctx (hpos htype)
      | schedule =>
          simp only [Triggers.evaluate, henb, htype, Bool.not_true,
            Bool.false_eq_true, if_false]
          exact scheduleLoop_now_false ctx.currentTime t.condition.times
      | pattern =>
          simp only [Triggers.evaluate, henb, htype, Bool.not_true,
            Bool.false_eq_true, if_false]
          exact evaluatePattern_now_false t.condition ctx
      | keyword => exact absurd htype hk
  · intro hk lf
    simp [Triggers.evaluate, hk]

/-- The keyword trigger of the C6 counterexample. -/
def keywordTrig : Triggers.Trigger :=
  ⟨"k", Triggers.TriggerType.keyword, { keywords := ["hello"] }, none, true⟩

/-- The context of the C6 counterexample: one recent message matching the
keyword. -/
def keywordCtx : Triggers.Context :=
  ⟨⟨0⟩, none, [⟨"Hello there"⟩]⟩

/-- Claim C6, counterexample.  A keyword trigger fires on the snapshot;
after `mark_fired` sets `last_fired` to the current time, re-evaluating
with the same context still returns true — the claim demands false for
every trigger type. -/
theorem c6_keyword_no_cooldown_cex :
    Triggers.evaluate keywordTrig keywordCtx = true ∧
    Triggers.mark_fired [keywordTrig] "k" keywordCtx.currentTime =
      [{ keywordTrig with lastFired := some keywordCtx.currentTime }] ∧
    Triggers.evaluate { keywordTrig with lastFired := some keywordCtx.currentTime }
      keywordCtx = true := by
  refine ⟨by decide, by decide, by decide⟩

/-- The time_based trigger of the C6 witness. -/
def timeTrig : Triggers.Trigger :=
  ⟨"m", Triggers.TriggerType.timeBased,
   { hour := some 8, minute := some 0 }, none, true⟩

/-- The context of the C6 witness. -/
def morningCtx : Triggers.Context := ⟨⟨28800⟩, none, []⟩

/-- Claim C6, witness: a time_based trigger does not re-fire immediately
after `mark_fired`. -/
theorem c6_witness :
    timeTrig.type ≠ Triggers.TriggerType.keyword ∧
    Triggers.evaluate { timeTrig with lastFired := some morningCtx.currentTime }
      morningCtx = false := by
  refine ⟨by decide, ?_⟩
  exact (c6_cooldown_amended timeTrig morningCtx).2.1 (by decide) (by decide)

/-!  Claim C7 and C10 — memory facade. -/

theorem get_or_create_user_messages (isU : String → Bool) (db : Memory.Db)
    (uid fid : String) :
    (Memory.get_or_create_user isU db uid fid).2.messages = db.messages := by
  unfold Memory.get_or_create_user
  cases hr : Memory.resolve_user_by_name isU db uid <;> rfl

theorem get_or_create_user_of_none (isU : String → Bool) (db : Memory.Db)
    (uid fid : String) (h : Memory.resolve_user_by_name isU db uid = none) :
    Memory.get_or_create_user isU db uid fid =
      (⟨if isU uid then uid else fid, uid⟩,
       { db with users := db.users ++ [⟨if isU uid then uid else fid, uid⟩] }) := by
  unfold Memory.get_or_create_user
  rw [h]

theorem get_active_session_messages (db : Memory.Db) (u : Memory.UserRow)
    (sid : String) (now : Nat) :
    (Memory.get_active_session db u sid now).2.messages = db.messages := by
  unfold Memory.get_active_session
  cases hp : Memory.pickActiveSession
    (db.sessions.filter (fun s => s.userId == u.id && s.endedAt.isNone)) <;> rfl

theorem get_active_session_users (db : Memory.Db) (u : Memory.UserRow)
    (sid : String) (now : Nat) :
    (Memory.get_active_session db u sid now).2.users = db.users := by
  unfold Memory.get_active_session
  cases hp : Memory.pickActiveSession
    (db.sessions.filter (fun s => s.userId == u.id && s.endedAt.isNone)) <;> rfl

/-- Claim C7, confirmed.  When the relational phase of `save_message`
commits (the role is valid), a vector-store failure does not fail the
call: the result is `ok`, the vector store is returned untouched, and
the committed relational state is the same `db'` an untroubled run
produces — the Message row appended by the commit carries the given role
and content.  The relational commit is computed before and independently
of the vector upsert, which only reads its output. -/
theorem c7_save_message_vector_isolated (isU : String → Bool) (db : Memory.Db)
    (vs : VectorStore.Store) (userId role content : String) (md : VectorStore.Meta)
    (fU fS fM : String) (now : Nat)
    (hrole : Memory.validRoles.contains (StrUtil.pyLower role) = true) :
    ∃ db', Memory.save_message isU db vs true userId role content md fU fS fM now =
        Except.ok (db', vs) ∧
      (∃ vs', Memory.save_message isU db vs false userId role content md fU fS fM now =
        Except.ok (db', vs')) ∧
      (∃ m, db'.messages = db.messages ++ [m] ∧
        m.role = StrUtil.pyLower role ∧ m.content = content) := by
  unfold Memory.save_message
  rw [hrole]
  simp only [Bool.not_true, Bool.false_eq_true, if_false]
  refine ⟨_, rfl, ⟨_, rfl⟩,
    ⟨⟨fM, (Memory.get_or_create_user isU db userId fU).1.id, StrUtil.pyLower role,
      content,
      (Memory.get_active_session (Memory.get_or_create_user isU db userId fU).2
        (Memory.get_or_create_user isU db userId fU).1 fS now).1.id, now, md⟩,
     ?_, rfl, rfl⟩⟩
  show (Memory.get_active_session (Memory.get_or_create_user isU db userId fU).2
      (Memory.get_or_create_user isU db userId fU).1 fS now).2.messages ++ [_] =
    db.messages ++ [_]
  rw [get_active_session_messages, get_or_create_user_messages]

/-- Claim C7, witness: a concrete save with a failing vector upsert. -/
theorem c7_witness :
    Memory.validRoles.contains (StrUtil.pyLower "user") = true ∧
    ∃ db', Memory.save_message (fun _ => false) ⟨[], [], []⟩ [] true "alice" "user"
        "hi" [] "u1" "s1" "m1" 7 = Except.ok (db', []) ∧
      (∃ vs', Memory.save_message (fun _ => false) ⟨[], [], []⟩ [] false "alice" "user"
        "hi" [] "u1" "s1" "m1" 7 = Except.ok (db', vs')) ∧
      (∃ m, db'.messages = ([] : List Memory.MessageRow) ++ [m] ∧
        m.role = StrUtil.pyLower "user" ∧ m.content = "hi") := by
  refine ⟨by decide, ?_⟩
  exact c7_save_message_vector_isolated (fun _ => false) ⟨[], [], []⟩ [] "alice"
    "user" "hi" [] "u1" "s1" "m1" 7 (by decide)

theorem resolve_after_create (isU : String → Bool) (db : Memory.Db) (uid fid : String)
    (hnone : Memory.resolve_user_by_name isU db uid = none) :
    ∀ db2 : Memory.Db,
      db2.users = db.users ++ [⟨if isU uid then uid else fid, uid⟩] →
      (Memory.resolve_user_by_name isU db2 uid).isSome = true := by
  intro db2 hu
  unfold Memory.resolve_user_by_name at hnone ⊢
  rw [hu]
  by_cases hiu : isU uid
  · simp only [hiu, if_true] at hnone ⊢
    cases hfi : db.users.find? (fun u => u.id == uid) with
    | some u => rw [hfi] at hnone; cases hnone
    | none =>
        rw [List.find?_append, hfi]
        simp [List.find?]
  · have hiu' : isU uid = false := by simpa using hiu
    simp only [hiu', Bool.false_eq_true, if_false] at hnone ⊢
    rw [List.find?_append, hnone]
    simp [List.find?]

/-- Claim C10, confirmed.  `get_history` with a user id matching no User
row (neither as UUID primary key nor by name) returns the empty list and
leaves the store untouched — asymmetric with `save_message`, which on
the same store auto-creates the user, so that the id resolves
afterwards. -/
theorem c10_get_history_unknown_user (isU : String → Bool) (db : Memory.Db)
    (uid : String) (limit : Nat) (vs : VectorStore.Store) (content : String)
    (md : VectorStore.Meta) (fU fS fM : String) (now : Nat)
    (hnone : Memory.resolve_user_by_name isU db uid = none) :
    Memory.get_history isU db uid limit = ([], db) ∧
    ∃ db' vs', Memory.save_message isU db vs false uid "user" content md fU fS fM now =
        Except.ok (db', vs') ∧
      (Memory.resolve_user_by_name isU db' uid).isSome = true := by
  constructor
  · unfold Memory.get_history
    rw [hnone]
  · unfold Memory.save_message
    rw [show Memory.validRoles.contains (StrUtil.pyLower "user") = true from rfl]
    simp only [Bool.not_true, Bool.false_eq_true, if_false]
    refine ⟨_, _, rfl, ?_⟩
    apply resolve_after_create isU db uid fU hnone
    show (Memory.get_active_session (Memory.get_or_create_user isU db uid fU).2
        (Memory.get_or_create_user isU db uid fU).1 fS now).2.users = _
    rw [get_active_session_users]
    rw [get_or_create_user_of_none isU db uid fU hnone]

/-- Claim C10, witness: an empty store, a name that resolves to no user. -/
theorem c10_witness :
    Memory.resolve_user_by_name (fun _ => false) ⟨[], [], []⟩ "alice" = none ∧
    Memory.get_history (fun _ => false) ⟨[], [], []⟩ "alice" 10 = ([], ⟨[], [], []⟩) := by
  refine ⟨rfl, ?_⟩
  exact (c10_get_history_unknown_user (fun _ => false) ⟨[], [], []⟩ "alice" 10 []
    "hi" [] "u1" "s1" "m1" 7 rfl).1
